import Mathlib

/-!
A verification development of the cross-storage hub (`dist/hub.js`).

This file gives a shallow embedding of the request protocol engine of the
cross-storage hub: the permission authorizer (`CrossStorageHub._permitted`),
the asynchronous fan-out helper (`CrossStorageHub._all`), the `get`/`set`
method handlers, and the post-parse portion of the message listener
(`CrossStorageHub._listener`), together with theorems about their behaviour.

Modelling conventions:
* JavaScript runtime values are embedded as the inductive `JSVal`
  (IEEE-754 numbers are narrowed to `Int`; no statement in this file
  depends on non-integer or NaN arithmetic).
* A Node-style callback invocation `callback(err, value)` is recorded as a
  value of `Option ErrVal × JSVal` (error argument, value argument); an
  asynchronous run is the ordered list of all callback invocations it emits.
* The concurrency of `_all` is modelled by an explicit completion schedule:
  the list of sub-operation indices in the order in which their adapter
  callbacks fire.  The JavaScript runtime is single threaded, so a run of
  `_all` is exactly a fold of the per-completion step over some schedule;
  an adapter that calls each callback exactly once yields a schedule that
  is a permutation of `List.range n`.
* A synchronously thrown (and uncaught) JavaScript exception is an
  `Except.error` outcome.
-/

namespace CrossStorageHub

/-- A JavaScript runtime value, as far as the hub's protocol engine
inspects values: `null`, `undefined`, booleans, numbers, strings, arrays
and plain objects.  Numbers are narrowed to `Int`. -/
inductive JSVal where
  | vNull
  | vUndefined
  | vBool (b : Bool)
  | vNum (n : Int)
  | vStr (s : String)
  | vArr (elems : List JSVal)
  | vObj (fields : List (String × JSVal))

/-- JavaScript truthiness (`!x` is the negation of this): `null`,
`undefined`, `false`, `0` and `""` are falsy; every array and object is
truthy. -/
def truthy : JSVal → Bool
  | .vNull => false
  | .vUndefined => false
  | .vBool b => b
  | .vNum n => n != 0
  | .vStr s => s != ""
  | .vArr _ => true
  | .vObj _ => true

/-- Property access `v[name]` on a value known not to be nullish: object
fields are looked up by name, any other receiver yields `undefined`.
Object field lists are keyed uniquely (the shape `JSON.parse` produces). -/
def getField (v : JSVal) (name : String) : JSVal :=
  match v with
  | .vObj fields =>
    match fields.find? (fun f => f.1 == name) with
    | some f => f.2
    | none => .vUndefined
  | _ => .vUndefined

/-- A JavaScript error value, carrying the `message` property that
`_listener` forwards into replies. -/
structure ErrVal where
  message : String
  deriving DecidableEq

/-- One invocation of the completion callback handed to
`CrossStorageHub._all`: either `callback(err)` on a sub-operation failure,
or `callback(null, results)` when the pending counter reaches zero. -/
inductive AllCall where
  | err (e : ErrVal)
  | ok (results : List JSVal)

/-- The mutable state closed over by one run of `CrossStorageHub._all`:
the `results` array (`new Array(params.length)`; holes read back as
`undefined`), the `pending` counter (a JavaScript number, hence `Int`),
and the ordered list of completion-callback invocations emitted so far. -/
structure AllState where
  results : List JSVal
  pending : Int
  calls : List AllCall

/-- The body of the per-sub-operation completion handler installed by
`CrossStorageHub._all` for index `i`, firing with outcome `op i`:

```js
if (err) { callback(err); }
else {
  results[i] = value;
  pending -= 1;
  if (pending === 0) { callback(null, results); }
}
``` -/
def allStep (op : Nat → Except ErrVal JSVal) (st : AllState) (i : Nat) : AllState :=
  match op i with
  | .error e => { st with calls := st.calls ++ [.err e] }
  | .ok v =>
    let results := st.results.set i v
    let pending := st.pending - 1
    if pending = 0 then
      { results := results, pending := pending, calls := st.calls ++ [.ok results] }
    else
      { results := results, pending := pending, calls := st.calls }

/-- A complete run of `CrossStorageHub._all` over `n = params.length`
sub-operations whose adapter callbacks fire in the order given by
`sched`, the `i`-th sub-operation completing with `op i`.  The initial
state mirrors `var results = new Array(params.length); var pending =
params.length;` and the only completion check sits inside the loop body,
so an empty `sched` emits no callback invocation at all. -/
def runAll (n : Nat) (op : Nat → Except ErrVal JSVal) (sched : List Nat) : AllState :=
  sched.foldl (allStep op) { results := List.replicate n .vUndefined, pending := (n : Int), calls := [] }

/-- The failures among the scheduled sub-operations, in completion
order. -/
def errsOf (op : Nat → Except ErrVal JSVal) (sched : List Nat) : List ErrVal :=
  sched.filterMap (fun i => match op i with | .error e => some e | .ok _ => none)

/-- The number of scheduled sub-operations that complete successfully. -/
def succCount (op : Nat → Except ErrVal JSVal) (sched : List Nat) : Nat :=
  sched.countP (fun i => match op i with | .error _ => false | .ok _ => true)

/-- One entry of the permission table handed to `CrossStorageHub.init`.
`origin` is `some test` when the entry's `origin` property is an actual
`RegExp` (embedded by its match predicate), `none` when `entry.origin
instanceof RegExp` fails; `allow` is `some list` when the entry's `allow`
property is an actual `Array`, `none` otherwise. -/
structure PermEntry where
  origin : Option (String → Bool)
  allow : Option (List String)

/-- The five recognized method names (`available` in
`CrossStorageHub._permitted`). -/
def available : List String := ["get", "set", "del", "clear", "getKeys"]

/-- `CrossStorageHub._inArray(value, array)`: linear scan with `===`. -/
def inArray (value : String) : List String → Bool
  | [] => false
  | x :: rest => if value = x then true else inArray value rest

/-- The scanning loop of `CrossStorageHub._permitted`: entries whose
`origin` is not a `RegExp` or whose `allow` is not an `Array` are skipped
with `continue`; an entry returns `true` only when its matcher accepts
the origin *and* its allow list contains the method; otherwise the scan
moves on to the next entry. -/
def permittedScan (origin method : String) : List PermEntry → Bool
  | [] => false
  | entry :: rest =>
    match entry.origin, entry.allow with
    | some test, some allowList =>
      if test origin && inArray method allowList then true
      else permittedScan origin method rest
    | _, _ => permittedScan origin method rest

/-- `CrossStorageHub._permitted(origin, method)`: `false` outright when
`method` is not one of the five recognized names, otherwise the result of
scanning the permission table. -/
def permitted (perms : List PermEntry) (origin method : String) : Bool :=
  if !inArray method available then false
  else permittedScan origin method perms

/-- The state `CrossStorageHub.init` installs on success: the permission
table (`CrossStorageHub._permissions`).  The storage adapter handle is
threaded explicitly through the handler models below. -/
structure HubState where
  permissions : List PermEntry

/-- `CrossStorageHub.init(permissions, StorageAdapter)`: when no usable
storage path exists the function posts `cross-storage:unavailable` and
returns without installing the listener (modelled as `none`); otherwise
it stores `permissions || []` — so a `null`/missing argument becomes the
empty table — installs the listener and announces readiness. -/
def init (permissions : Option (List PermEntry)) (storageAvailable : Bool) : Option HubState :=
  if storageAvailable then some { permissions := permissions.getD [] } else none

/-- JavaScript `String.prototype.split` with a (non-empty) string
separator, on character lists: scan left to right, emitting the
accumulated segment at each non-overlapping occurrence of the separator.
The `fuel` argument only makes the recursion structural; it is always
called with more fuel than characters, so the fuel-exhausted branch is
unreachable. -/
def splitLoop (sep : List Char) : Nat → List Char → List Char → List (List Char)
  | 0, rest, acc => [acc.reverse ++ rest]
  | _ + 1, [], acc => [acc.reverse]
  | fuel + 1, c :: cs, acc =>
    if sep.isPrefixOf (c :: cs) then
      acc.reverse :: splitLoop sep fuel (List.drop sep.length (c :: cs)) []
    else
      splitLoop sep fuel cs (c :: acc)

/-- `s.split(sep)` for a non-empty string separator, as used by
`_listener` in `request.method.split('cross-storage:')`. -/
def jsSplit (s sep : String) : List String :=
  (splitLoop sep.data (s.data.length + 1) s.data []).map List.asString

/-- A reply posted by `CrossStorageHub._postMessage(origin, request,
error, result)`: the serialized `{id, error, result}` payload
(`error`/`result` are `undefined` when absent) and the target origin. -/
structure Reply where
  id : JSVal
  error : Option String
  result : JSVal
  targetOrigin : String

/-- `CrossStorageHub._postMessage`: builds the reply from `request.id`,
sending to the requesting origin, with the broadcast wildcard `'*'` when
the origin is the local-file sentinel. -/
def postMessage (origin : String) (request : JSVal) (error : Option String) (result : JSVal) : Reply :=
  { id := getField request "id"
    error := error
    result := result
    targetOrigin := if origin = "file://" then "*" else origin }

/-- Where the post-parse part of `CrossStorageHub._listener` sends one
inbound message: silently dropped, answered immediately with a
permission-error reply, or dispatched to the handler named
`'_' + name`. -/
inductive Route where
  | drop
  | reply (r : Reply)
  | dispatch (name : String) (params : JSVal) (id : JSVal)

/-- Lines 224–243 of `CrossStorageHub._listener`, after the raw payload
has been normalized and parsed: `origin` is the message origin with the
`'null'` local-file value already mapped to `'file://'` (line 206), and
`request` is the value `JSON.parse(message.data)` produced (the
poll/ready control strings and parse failures return earlier and never
reach this code).

```js
if (!request || typeof request.method !== 'string') return;
method = request.method.split('cross-storage:')[1];
if (!method) return;
else if (!CrossStorageHub._permitted(origin, method))
  postMessage(origin, request, 'Invalid permissions for ' + method, undefined);
else CrossStorageHub['_' + method](request.params, callback);
``` -/
def listenerRoute (perms : List PermEntry) (origin : String) (request : JSVal) : Route :=
  if !truthy request then .drop
  else
    match getField request "method" with
    | .vStr s =>
      match (jsSplit s "cross-storage:")[1]? with
      | none => .drop
      | some name =>
        if name = "" then .drop
        else if !permitted perms origin name then
          .reply (postMessage origin request (some ("Invalid permissions for " ++ name)) .vUndefined)
        else .dispatch name (getField request "params") (getField request "id")
    | _ => .drop

/-- The continuation `_listener` installs as the handler's completion
callback (lines 236–242): an error argument becomes a reply carrying
`err.message` and no result, otherwise the value becomes the reply's
result with no error. -/
def dispatchCallback (origin : String) (request : JSVal) : Option ErrVal × JSVal → Reply
  | (some e, _) => postMessage origin request (some e.message) .vUndefined
  | (none, v) => postMessage origin request none v

/-- The storage contents behind an adapter that faithfully stores written
values, keyed by string keys (the wire protocol's `keys` are strings). -/
def Store := String → Option JSVal

/-- `getItem` against a faithful store: the stored value, or `null` for
an unset key (the `localStorage.getItem` contract). -/
def getItem (store : Store) (key : String) : JSVal :=
  (store key).getD .vNull

/-- `setItem` against a faithful store. -/
def setItem (store : Store) (key : String) (value : JSVal) : Store :=
  fun k => if k = key then some value else store k

/-- An adapter read that always succeeds, backed by a faithful store. -/
def storeRead (store : Store) (key : String) : Except ErrVal JSVal :=
  .ok (getItem store key)

/-- The sub-operation `_all` launches for index `i` on behalf of `_get`:
the adapter's `getItem` applied to `params[i]`, i.e. `keys[i]`.  The
default `""` is never reached: every schedule index is below
`keys.length`. -/
def getOp (read : String → Except ErrVal JSVal) (keys : List String) (i : Nat) : Except ErrVal JSVal :=
  read (keys.getD i "")

/-- The continuation `_get` wraps around `_all`'s completion callback
(lines 320–331):

```js
if (err) { callback(err); }
else {
  var result = (value.length > 1) ? value : value[0];
  if (!result) { callback(null, null); } else { callback(null, result); }
}
``` -/
def getCont (call : AllCall) : Option ErrVal × JSVal :=
  match call with
  | .err e => (some e, .vUndefined)
  | .ok value =>
    let result := if value.length > 1 then JSVal.vArr value else value.headD .vUndefined
    if !truthy result then (none, .vNull) else (none, result)

/-- A run of `CrossStorageHub._get({keys: keys}, callback)` whose adapter
callbacks fire in schedule order: each `_all` completion is shaped by
`_get`'s continuation, yielding the ordered list of outer callback
invocations. -/
def runGet (read : String → Except ErrVal JSVal) (keys : List String) (sched : List Nat) :
    List (Option ErrVal × JSVal) :=
  ((runAll keys.length (getOp read keys) sched).calls).map getCont

/-- A dispatched `get` request end to end: `_get`'s callback invocations
forwarded through `_listener`'s completion callback into posted
replies. -/
def runGetReplies (read : String → Except ErrVal JSVal) (origin : String) (request : JSVal)
    (keys : List String) (sched : List Nat) : List Reply :=
  (runGet read keys sched).map (dispatchCallback origin request)

/-- The synchronous prefix of a dispatched `_get(params, callback)`,
*before* any adapter callback can run: `_get` evaluates `params.keys`
(line 320), which throws a `TypeError` when `params` is `null` or
`undefined`; `_all` then evaluates `params.length` on that value
(lines 392–393), which throws when `keys` is `null` or `undefined`.
Neither access sits inside a `try`/`catch`, so an `Except.error` here is
an exception that propagates uncaught out of `_listener`, and
`_postMessage` is never reached for this request. -/
def getHandlerSync (params : JSVal) : Except ErrVal JSVal :=
  match params with
  | .vNull => .error { message := "TypeError: Cannot read properties of null (reading 'keys')" }
  | .vUndefined => .error { message := "TypeError: Cannot read properties of undefined (reading 'keys')" }
  | p =>
    match getField p "keys" with
    | .vNull => .error { message := "TypeError: Cannot read properties of null (reading 'length')" }
    | .vUndefined => .error { message := "TypeError: Cannot read properties of undefined (reading 'length')" }
    | keys => .ok keys

/-- A concrete sub-operation assignment in which both sub-operations
fail (used to exercise `_all` under more than one failure). -/
def twoFailOp : Nat → Except ErrVal JSVal :=
  fun i => .error { message := "fail " ++ toString i }

/-- A concrete sub-operation assignment over three indices failing
exactly at index 1. -/
def oneFailOp : Nat → Except ErrVal JSVal :=
  fun i => if i = 1 then .error { message := "boom" } else .ok (.vNum i)

/-- A concrete parsed request whose `method` string merely *contains*
`cross-storage:` rather than starting with it. -/
def reqMarkedMethod : JSVal :=
  .vObj [("id", .vNum 1), ("method", .vStr "xcross-storage:get"), ("params", .vObj [("keys", .vArr [.vStr "a"])])]

/-- A concrete well-formed parsed `get` request. -/
def reqGet : JSVal :=
  .vObj [("id", .vNum 3), ("method", .vStr "cross-storage:get"),
         ("params", .vObj [("keys", .vArr [.vStr "a"])])]

/-- A permission table entry whose matcher accepts exactly the origin
`"https://client.example.com"` and which allows only `get`. -/
def entryClientGet : PermEntry :=
  { origin := some (fun o => o = "https://client.example.com"), allow := some ["get"] }

/-- The empty store: no key is set. -/
def emptyStore : Store := fun _ => none

/-- A concrete adapter read that always fails (e.g. quota exceeded). -/
def failingRead : String → Except ErrVal JSVal :=
  fun _ => .error { message := "quota exceeded" }

/-- Proof device describing the contents of `_all`'s `results` array
part-way through a run: position `i` holds `v i` once the sub-operation
for index `i` has completed (its index is in `processed`), and is still
an array hole (`undefined`) otherwise. -/
def partialResults (v : Nat → JSVal) (n : Nat) (processed : List Nat) : List JSVal :=
  (List.range n).map (fun i => if i ∈ processed then v i else .vUndefined)

theorem inArray_eq_true_iff (v : String) (l : List String) : inArray v l = true ↔ v ∈ l := by
  induction l with
  | nil => simp [inArray]
  | cons x rest ih => by_cases h : v = x <;> simp [inArray, h, ih]

theorem permittedScan_eq_true_iff (O M : String) (perms : List PermEntry) :
    permittedScan O M perms = true ↔
      ∃ e ∈ perms, ∃ test allowList,
        e.origin = some test ∧ e.allow = some allowList ∧ test O = true ∧ M ∈ allowList := by
  induction perms with
  | nil => simp [permittedScan]
  | cons e rest ih =>
    cases ho : e.origin with
    | none =>
      simp only [permittedScan, ho, ih, List.mem_cons]
      constructor
      · rintro ⟨e', he', w⟩; exact ⟨e', Or.inr he', w⟩
      · rintro ⟨e', he' | he', t, al, hot, hal, htest, hmem⟩
        · subst he'; rw [ho] at hot; exact absurd hot (by simp)
        · exact ⟨e', he', t, al, hot, hal, htest, hmem⟩
    | some t =>
      cases ha : e.allow with
      | none =>
        simp only [permittedScan, ho, ha, ih, List.mem_cons]
        constructor
        · rintro ⟨e', he', w⟩; exact ⟨e', Or.inr he', w⟩
        · rintro ⟨e', he' | he', t', al, hot, hal, htest, hmem⟩
          · subst he'; rw [ha] at hal; exact absurd hal (by simp)
          · exact ⟨e', he', t', al, hot, hal, htest, hmem⟩
      | some al =>
        have hstep : permittedScan O M (e :: rest) =
            if t O && inArray M al then true else permittedScan O M rest := by
          simp [permittedScan, ho, ha]
        by_cases hm : (t O && inArray M al) = true
        · rw [hstep, if_pos hm]
          have hm' := hm
          rw [Bool.and_eq_true, inArray_eq_true_iff] at hm'
          simp only [true_iff]
          exact ⟨e, List.mem_cons_self e rest, t, al, ho, ha, hm'.1, hm'.2⟩
        · rw [hstep, if_neg hm, ih]
          simp only [List.mem_cons]
          constructor
          · rintro ⟨e', he', w⟩; exact ⟨e', Or.inr he', w⟩
          · rintro ⟨e', he' | he', t', al', hot, hal, htest, hmem⟩
            · exfalso
              subst he'
              rw [ho] at hot; rw [ha] at hal
              injection hot with hot'; injection hal with hal'
              subst hot'; subst hal'
              rw [Bool.and_eq_true, inArray_eq_true_iff] at hm
              exact hm ⟨htest, hmem⟩
            · exact ⟨e', he', t', al', hot, hal, htest, hmem⟩

/-- Claim C1: `permitted(O, M)` is true iff some permission-table entry
whose matcher is a well-formed `RegExp` and whose allow-list is a
well-formed `Array` both accepts `O` and contains `M`.  In particular it
is false for any `M` outside the five recognized names regardless of
table contents, malformed entries are skipped rather than causing
rejection, and an entry that matches `O` without allowing `M` does not
stop the scan (entries are additive: any later entry can still grant). -/
theorem permitted_iff_matching_entry (perms : List PermEntry) (O M : String) :
    permitted perms O M = true ↔
      (M ∈ available ∧ ∃ e ∈ perms, ∃ test allowList,
        e.origin = some test ∧ e.allow = some allowList ∧ test O = true ∧ M ∈ allowList) := by
  unfold permitted
  by_cases hin : inArray M available
  · rw [if_neg (by simp [hin]), permittedScan_eq_true_iff]
    rw [inArray_eq_true_iff] at hin
    simp [hin]
  · rw [if_pos (by simp [Bool.not_eq_true] at hin ⊢; exact hin)]
    rw [Bool.not_eq_true, ← Bool.not_eq_true, inArray_eq_true_iff] at hin
    simp [hin]

/-- Claim C3: a fan-out run of `_all` over an empty parameter sequence
never invokes its completion callback at all — the pending counter
starts at `0` and the only completion check sits inside the loop body,
which never runs.  (The specified behaviour would be a single
`callback(null, [])` invocation.) -/
theorem runAll_empty_never_calls_back (op : Nat → Except ErrVal JSVal) :
    (runAll 0 op []).calls = [] := rfl

theorem foldl_allStep_calls_pending (op : Nat → Except ErrVal JSVal) :
    ∀ (sched : List Nat) (r : List JSVal) (p : Int) (c : List AllCall),
      (∀ s : Nat, 1 ≤ s → s ≤ succCount op sched → p ≠ s) →
      (sched.foldl (allStep op) { results := r, pending := p, calls := c }).calls
          = c ++ (errsOf op sched).map AllCall.err
        ∧ (sched.foldl (allStep op) { results := r, pending := p, calls := c }).pending
          = p - succCount op sched := by
  intro sched
  induction sched with
  | nil => intro r p c _; simp [errsOf, succCount]
  | cons i rest ih =>
    intro r p c hp
    cases hop : op i with
    | error e =>
      have hsucc : succCount op (i :: rest) = succCount op rest := by
        simp [succCount, List.countP_cons, hop]
      have herrs : errsOf op (i :: rest) = e :: errsOf op rest := by
        simp [errsOf, List.filterMap_cons, hop]
      have hstep : allStep op { results := r, pending := p, calls := c } i
          = { results := r, pending := p, calls := c ++ [.err e] } := by
        simp [allStep, hop]
      rw [List.foldl_cons, hstep]
      obtain ⟨h1, h2⟩ := ih r p (c ++ [.err e]) (by rw [← hsucc]; exact hp)
      refine ⟨?_, ?_⟩
      · rw [h1, herrs]; simp
      · rw [h2, hsucc]
    | ok v =>
      have hsucc : succCount op (i :: rest) = succCount op rest + 1 := by
        simp [succCount, List.countP_cons, hop]
      have hpend : ¬(p - 1 = 0) := by
        intro h0
        have hp1 : p = 1 := by omega
        exact hp 1 le_rfl (by omega) (by rw [hp1]; norm_num)
      have hstep : allStep op { results := r, pending := p, calls := c } i
          = { results := r.set i v, pending := p - 1, calls := c } := by
        simp [allStep, hop, hpend]
      rw [List.foldl_cons, hstep]
      have hp' : ∀ s : Nat, 1 ≤ s → s ≤ succCount op rest → p - 1 ≠ (s : Int) := by
        intro s h1 h2 heq
        have : p = (s : Int) + 1 := by omega
        exact hp (s + 1) (by omega) (by omega) (by push_cast; omega)
      obtain ⟨h1, h2⟩ := ih (r.set i v) (p - 1) c hp'
      have herrs : errsOf op (i :: rest) = errsOf op rest := by
        simp [errsOf, List.filterMap_cons, hop]
      refine ⟨?_, ?_⟩
      · rw [h1, herrs]
      · rw [h2, hsucc]; push_cast; ring

theorem succCount_lt_of_fail (n : Nat) (op : Nat → Except ErrVal JSVal) (sched : List Nat)
    (hperm : sched.Perm (List.range n))
    (hfail : ∃ i ∈ sched, ∃ e, op i = Except.error e) :
    succCount op sched < n := by
  have hlen : sched.length = n := by simpa using hperm.length_eq
  have hle : succCount op sched ≤ n := by
    rw [← hlen]; exact List.countP_le_length _
  rcases lt_or_eq_of_le hle with h | h
  · exact h
  · exfalso
    rw [← hlen] at h
    have hall := List.countP_eq_length.mp h
    obtain ⟨i, hi, e, he⟩ := hfail
    have := hall i hi
    rw [he] at this
    simp at this

theorem runAll_failure_calls (n : Nat) (op : Nat → Except ErrVal JSVal)
    (sched : List Nat) (hperm : sched.Perm (List.range n))
    (hfail : ∃ i ∈ sched, ∃ e, op i = Except.error e) :
    (runAll n op sched).calls = (errsOf op sched).map AllCall.err
      ∧ errsOf op sched ≠ [] := by
  have hlt := succCount_lt_of_fail n op sched hperm hfail
  have hp : ∀ s : Nat, 1 ≤ s → s ≤ succCount op sched → (n : Int) ≠ s := by
    intro s _ h2 heq
    have : n = s := by exact_mod_cast heq
    omega
  obtain ⟨h1, _⟩ := foldl_allStep_calls_pending op sched (List.replicate n .vUndefined) n [] hp
  refine ⟨by simpa [runAll] using h1, ?_⟩
  obtain ⟨i, hi, e, he⟩ := hfail
  have hmem : e ∈ errsOf op sched := by
    rw [errsOf, List.mem_filterMap]
    exact ⟨i, hi, by rw [he]⟩
  exact List.ne_nil_of_mem hmem

/-- Claim C2 (amended): in a fan-out run of `_all` over a non-empty item
sequence in which at least one sub-operation fails, the completion
callback is never invoked with a (partial or total) result sequence: its
invocations are exactly one error invocation per failing sub-operation,
in completion order.  Hence the first invocation carries the first
observed failure and later *successes* never re-invoke the callback —
but each later *failure* does re-invoke it. -/
theorem runAll_failure_calls_are_errors (n : Nat) (op : Nat → Except ErrVal JSVal)
    (sched : List Nat) (hperm : sched.Perm (List.range n))
    (hfail : ∃ i ∈ sched, ∃ e, op i = Except.error e) :
    (runAll n op sched).calls = (errsOf op sched).map AllCall.err
      ∧ errsOf op sched ≠ [] :=
  runAll_failure_calls n op sched hperm hfail

/-- Counterexample to claim C2 as stated: a fan-out over two items whose
sub-operations both fail invokes the consumer's completion callback a
second time when the second failure completes — the run emits two
callback invocations, not one. -/
theorem runAll_two_failures_two_calls :
    (runAll 2 twoFailOp [0, 1]).calls
        = [AllCall.err { message := "fail 0" }, AllCall.err { message := "fail 1" }]
      ∧ (runAll 2 twoFailOp [0, 1]).calls.length ≠ 1 :=
  ⟨rfl, by decide⟩

theorem runAll_failure_calls_are_errors_witness :
    ([2, 1, 0] : List Nat).Perm (List.range 3)
      ∧ ((runAll 3 oneFailOp [2, 1, 0]).calls = (errsOf oneFailOp [2, 1, 0]).map AllCall.err
          ∧ errsOf oneFailOp [2, 1, 0] ≠ []) :=
  ⟨by decide,
   runAll_failure_calls_are_errors 3 oneFailOp [2, 1, 0] (by decide)
     ⟨1, by decide, { message := "boom" }, rfl⟩⟩

theorem partialResults_nil (v : Nat → JSVal) (n : Nat) :
    partialResults v n [] = List.replicate n JSVal.vUndefined := by
  simp [partialResults]

theorem partialResults_length (v : Nat → JSVal) (n : Nat) (ps : List Nat) :
    (partialResults v n ps).length = n := by
  simp [partialResults]

theorem partialResults_set (v : Nat → JSVal) (n : Nat) (ps : List Nat) (i : Nat) (hi : i < n) :
    (partialResults v n ps).set i (v i) = partialResults v n (ps ++ [i]) := by
  apply List.ext_getElem?
  intro j
  rw [List.getElem?_set]
  by_cases hij : i = j
  · subst hij
    rw [if_pos rfl, if_pos (by rw [partialResults_length]; exact hi)]
    simp [partialResults, List.getElem?_map, List.getElem?_range, hi]
  · rw [if_neg hij]
    simp only [partialResults, List.getElem?_map]
    by_cases hj : j < n
    · rw [List.getElem?_range hj]
      simp only [Option.map_some']
      have hmem : (j ∈ ps ++ [i]) ↔ j ∈ ps := by
        simp only [List.mem_append, List.mem_singleton]
        constructor
        · rintro (h | h)
          · exact h
          · exact absurd h.symm hij
        · exact Or.inl
      by_cases hjp : j ∈ ps
      · rw [if_pos hjp, if_pos (hmem.mpr hjp)]
      · rw [if_neg hjp, if_neg (fun h => hjp (hmem.mp h))]
    · have hnone : (List.range n)[j]? = none :=
        List.getElem?_eq_none (by simpa using Nat.le_of_not_lt hj)
      rw [hnone, Option.map_none', Option.map_none']

theorem partialResults_eq_map (v : Nat → JSVal) (n : Nat) (ps : List Nat)
    (h : ∀ i, i < n → i ∈ ps) :
    partialResults v n ps = (List.range n).map v := by
  unfold partialResults
  apply List.map_congr_left
  intro a ha
  rw [if_pos (h a (List.mem_range.mp ha))]

theorem foldl_allStep_success (n : Nat) (op : Nat → Except ErrVal JSVal) (v : Nat → JSVal)
    (hop : ∀ i, i < n → op i = Except.ok (v i)) :
    ∀ (sched processed : List Nat),
      (processed ++ sched).Perm (List.range n) → sched ≠ [] →
      sched.foldl (allStep op)
          { results := partialResults v n processed
            pending := (n : Int) - processed.length, calls := [] }
        = { results := partialResults v n (processed ++ sched), pending := 0,
            calls := [AllCall.ok (partialResults v n (processed ++ sched))] } := by
  intro sched
  induction sched with
  | nil => intro processed _ hne; exact absurd rfl hne
  | cons i rest ih =>
    intro processed hperm _
    have hlen : processed.length + (rest.length + 1) = n := by
      have h := hperm.length_eq
      simp [List.length_append] at h
      omega
    have hin : i < n := by
      have hmem : i ∈ processed ++ i :: rest := by simp
      exact List.mem_range.mp (hperm.subset hmem)
    have hopi : op i = Except.ok (v i) := hop i hin
    have hset : (partialResults v n processed).set i (v i)
        = partialResults v n (processed ++ [i]) := partialResults_set v n processed i hin
    by_cases hrest : rest = []
    · subst hrest
      simp only [List.length_nil] at hlen
      have hpend : ((n : Int) - processed.length) - 1 = 0 := by
        omega
      have hstep : allStep op
          { results := partialResults v n processed
            pending := (n : Int) - processed.length, calls := [] } i
          = { results := partialResults v n (processed ++ [i]), pending := 0,
              calls := [AllCall.ok (partialResults v n (processed ++ [i]))] } := by
        simp only [allStep, hopi, hset, hpend, if_pos]
        simp
      rw [List.foldl_cons, hstep, List.foldl_nil]
    · have hrlen : 1 ≤ rest.length := List.length_pos.mpr hrest
      have hpendne : ¬(((n : Int) - processed.length) - 1 = 0) := by
        omega
      have hstep : allStep op
          { results := partialResults v n processed
            pending := (n : Int) - processed.length, calls := [] } i
          = { results := partialResults v n (processed ++ [i])
              pending := (n : Int) - (processed ++ [i]).length, calls := [] } := by
        simp only [allStep, hopi, hset]
        rw [if_neg hpendne]
        simp [List.length_append]
        ring
      rw [List.foldl_cons, hstep]
      have hperm' : ((processed ++ [i]) ++ rest).Perm (List.range n) := by
        rw [List.append_assoc, List.singleton_append]
        exact hperm
      have hres := ih (processed ++ [i]) hperm' hrest
      rw [hres, List.append_assoc, List.singleton_append]

theorem runAll_success_calls (n : Nat) (op : Nat → Except ErrVal JSVal) (v : Nat → JSVal)
    (sched : List Nat) (hn : 0 < n) (hperm : sched.Perm (List.range n))
    (hop : ∀ i, i < n → op i = Except.ok (v i)) :
    (runAll n op sched).calls = [AllCall.ok ((List.range n).map v)] := by
  have hne : sched ≠ [] := by
    intro h
    subst h
    have := hperm.length_eq
    simp at this
    omega
  have h0 := foldl_allStep_success n op v hop sched [] (by simpa using hperm) hne
  have hfull : partialResults v n ([] ++ sched) = (List.range n).map v := by
    apply partialResults_eq_map
    intro i hi
    simp only [List.nil_append]
    exact (hperm.mem_iff).mpr (List.mem_range.mpr hi)
  rw [runAll]
  rw [show List.replicate n JSVal.vUndefined = partialResults v n [] from
    (partialResults_nil v n).symm]
  rw [show (n : Int) = (n : Int) - (([] : List Nat)).length by simp]
  rw [h0, hfull]

/-- Claim C7 (amended): a fan-out run of `_all` over `n ≥ 1` items whose
sub-operations all succeed invokes its completion callback exactly once,
whatever the completion order, and the delivered sequence has length `n`
with the `i`-th element being the result of the sub-operation launched
for the `i`-th item.  (For `n = 0` the aggregator never completes at
all — the separately recorded empty-input defect.) -/
theorem runAll_success_positional (n : Nat) (op : Nat → Except ErrVal JSVal) (v : Nat → JSVal)
    (sched : List Nat) (hn : 0 < n) (hperm : sched.Perm (List.range n))
    (hop : ∀ i, i < n → op i = Except.ok (v i)) :
    (runAll n op sched).calls = [AllCall.ok ((List.range n).map v)] :=
  runAll_success_calls n op v sched hn hperm hop

/-- Counterexample to claim C7 as stated at `n = 0`: a fan-out over zero
items (all of whose zero sub-operations vacuously succeed) never
produces an aggregated result sequence — no completion is ever emitted,
rather than a completion with the empty sequence. -/
theorem runAll_zero_items_no_result :
    (runAll 0 (fun _ => Except.ok JSVal.vNull) []).calls = []
      ∧ ([] : List AllCall) ≠ [AllCall.ok []] :=
  ⟨rfl, fun h => nomatch h⟩

theorem runAll_success_positional_witness :
    0 < 3 ∧ ([2, 0, 1] : List Nat).Perm (List.range 3)
      ∧ (runAll 3 (fun i => Except.ok (JSVal.vNum i)) [2, 0, 1]).calls
          = [AllCall.ok [JSVal.vNum 0, JSVal.vNum 1, JSVal.vNum 2]] :=
  ⟨by decide, by decide,
   runAll_success_positional 3 (fun i => Except.ok (JSVal.vNum i)) (fun i => JSVal.vNum i)
     [2, 0, 1] (by decide) (by decide) (fun _ _ => rfl)⟩

theorem map_range_getD {α β : Type} (f : α → β) (d : α) (l : List α) :
    (List.range l.length).map (fun i => f (l.getD i d)) = l.map f := by
  induction l with
  | nil => simp
  | cons x xs ih =>
    rw [List.length_cons, List.range_succ_eq_map]
    simp only [List.map_cons, List.map_map, List.getD_cons_zero]
    refine congrArg (f x :: ·) ?_
    rw [show ((fun i => f ((x :: xs).getD i d)) ∘ Nat.succ)
        = fun i => f (xs.getD i d) from funext (fun i => by simp [List.getD_cons_succ])]
    exact ih

theorem runGet_success (store : Store) (keys : List String) (sched : List Nat)
    (hperm : sched.Perm (List.range keys.length)) (hne : 0 < keys.length) :
    runGet (storeRead store) keys sched
      = [getCont (AllCall.ok (keys.map (getItem store)))] := by
  have hcalls := runAll_success_calls keys.length (getOp (storeRead store) keys)
    (fun i => getItem store (keys.getD i "")) sched hne hperm
    (fun i _ => rfl)
  rw [runGet, hcalls, map_range_getD]
  simp

/-- Claim C6: for a successful `get` request, a single requested key
yields that key's single value as the reply result, coerced to `null`
when the stored value is falsy or unset; more than one requested key
yields the full ordered value sequence, with `null` entries preserved
for unset keys (never collapsed to a single `null`), whatever order the
per-key reads complete in. -/
theorem get_result_shaping (store : Store) (origin : String) (request : JSVal) :
    (∀ (k : String) (sched : List Nat), sched.Perm (List.range 1) →
        runGetReplies (storeRead store) origin request [k] sched
          = [postMessage origin request none
              (if truthy (getItem store k) then getItem store k else JSVal.vNull)])
    ∧ (∀ (keys : List String) (sched : List Nat), 1 < keys.length →
        sched.Perm (List.range keys.length) →
        runGetReplies (storeRead store) origin request keys sched
          = [postMessage origin request none (JSVal.vArr (keys.map (getItem store)))]) := by
  constructor
  · intro k sched hperm
    rw [runGetReplies, runGet_success store [k] sched (by simpa using hperm) (by simp)]
    cases htr : truthy (getItem store k) <;>
      simp [getCont, dispatchCallback, htr]
  · intro keys sched hkeys hperm
    rw [runGetReplies, runGet_success store keys sched hperm (by omega)]
    simp [getCont, dispatchCallback, hkeys, truthy]

theorem get_result_shaping_witness :
    ([0] : List Nat).Perm (List.range 1)
      ∧ ([1, 0] : List Nat).Perm (List.range 2)
      ∧ runGetReplies (storeRead emptyStore) "o" reqGet ["a"] [0]
          = [postMessage "o" reqGet none
              (if truthy (getItem emptyStore "a") then getItem emptyStore "a" else JSVal.vNull)]
      ∧ runGetReplies (storeRead emptyStore) "o" reqGet ["a", "b"] [1, 0]
          = [postMessage "o" reqGet none (JSVal.vArr (["a", "b"].map (getItem emptyStore)))] :=
  ⟨by decide, by decide,
   (get_result_shaping emptyStore "o" reqGet).1 "a" [0] (by decide),
   (get_result_shaping emptyStore "o" reqGet).2 ["a", "b"] [1, 0] (by decide) (by decide)⟩

/-- Claim C8 (amended): a successful `set` of value `v` under key `k`
followed by `get` of `[k]`, against an adapter that faithfully stores
written values and with no intervening writes, replies with `v` whenever
`v` is truthy; for a falsy `v` (such as the empty string) the single-key
null-coercion of `get` makes the reply `null` instead of `v`. -/
theorem set_get_roundtrip (store : Store) (k : String) (v : JSVal)
    (origin : String) (request : JSVal) (hv : truthy v = true) :
    runGetReplies (storeRead (setItem store k v)) origin request [k] [0]
      = [postMessage origin request none v] := by
  have hst : setItem store k v k = some v := by simp [setItem]
  simp [runGetReplies, runGet, runAll, allStep, getOp, storeRead, getItem, hst,
    getCont, dispatchCallback, hv]

/-- Counterexample to claim C8 as stated: storing the (falsy) empty
string under `"a"` and then getting `["a"]` replies with `null`, not
with the stored value `""`. -/
theorem set_get_falsy_not_roundtrip :
    runGetReplies (storeRead (setItem emptyStore "a" (JSVal.vStr ""))) "o" reqGet ["a"] [0]
        = [postMessage "o" reqGet none JSVal.vNull]
      ∧ JSVal.vNull ≠ JSVal.vStr "" :=
  ⟨rfl, fun h => JSVal.noConfusion h⟩

theorem set_get_roundtrip_witness :
    truthy (JSVal.vStr "v") = true
      ∧ runGetReplies (storeRead (setItem emptyStore "a" (JSVal.vStr "v"))) "o" reqGet ["a"] [0]
          = [postMessage "o" reqGet none (JSVal.vStr "v")] :=
  ⟨rfl, set_get_roundtrip emptyStore "a" (JSVal.vStr "v") "o" reqGet rfl⟩

/-- Claim C4 (amended): for an inbound message that reaches the dispatch
step, failures reported through the handler's completion callback are
each caught and converted into a Reply carrying the error's message and
no result — but a dispatched `get` whose `params` (or `params.keys`)
field is missing or null throws a `TypeError` synchronously, before any
adapter call completes; that exception is not caught anywhere in
`_listener` or the handlers, so it propagates out of the listener and no
Reply is emitted for the request. -/
theorem get_failure_reply (read : String → Except ErrVal JSVal) (origin : String)
    (request : JSVal) (keys : List String) (sched : List Nat)
    (hperm : sched.Perm (List.range keys.length))
    (hfail : ∃ i ∈ sched, ∃ e, getOp read keys i = Except.error e) :
    runGetReplies read origin request keys sched
        = (errsOf (getOp read keys) sched).map
            (fun e => postMessage origin request (some e.message) JSVal.vUndefined)
      ∧ getHandlerSync JSVal.vNull
          = Except.error { message := "TypeError: Cannot read properties of null (reading 'keys')" }
      ∧ getHandlerSync JSVal.vUndefined
          = Except.error { message := "TypeError: Cannot read properties of undefined (reading 'keys')" } := by
  refine ⟨?_, rfl, rfl⟩
  obtain ⟨h1, _⟩ := runAll_failure_calls keys.length (getOp read keys) sched hperm hfail
  rw [runGetReplies, runGet, h1, List.map_map, List.map_map]
  rfl

/-- Counterexample to claim C4 as stated: dispatching `get` with a
missing `params` field (so `params` is `undefined`), or with params
lacking a `keys` field, throws an uncaught `TypeError` instead of being
converted into an error Reply. -/
theorem get_missing_params_uncaught :
    getHandlerSync JSVal.vUndefined
        = Except.error { message := "TypeError: Cannot read properties of undefined (reading 'keys')" }
      ∧ getHandlerSync (JSVal.vObj [("id", JSVal.vNum 1)])
        = Except.error { message := "TypeError: Cannot read properties of undefined (reading 'length')" } :=
  ⟨rfl, rfl⟩

theorem get_failure_reply_witness :
    ([0] : List Nat).Perm (List.range 1)
      ∧ (runGetReplies failingRead "o" reqGet ["a"] [0]
            = (errsOf (getOp failingRead ["a"]) [0]).map
                (fun e => postMessage "o" reqGet (some e.message) JSVal.vUndefined)
          ∧ getHandlerSync JSVal.vNull
              = Except.error { message := "TypeError: Cannot read properties of null (reading 'keys')" }
          ∧ getHandlerSync JSVal.vUndefined
              = Except.error { message := "TypeError: Cannot read properties of undefined (reading 'keys')" }) :=
  ⟨by decide,
   get_failure_reply failingRead "o" reqGet ["a"] [0] (by decide)
     ⟨0, by decide, { message := "quota exceeded" }, rfl⟩⟩

/-- Claim C5 (amended): the post-parse listener leaves the silent-drop
path (dispatching or replying with a permission error) exactly when the
parsed payload is truthy and its `method` field is a string in which
`split` on `"cross-storage:"` yields a non-empty segment at index 1 —
i.e. the string *contains* `"cross-storage:"` somewhere and a non-empty
name segment follows its first occurrence.  The exact prefix form
`"cross-storage:<name>"` is not required: arbitrary text may precede the
marker. -/
theorem listener_not_dropped_iff (perms : List PermEntry) (origin : String) (request : JSVal) :
    listenerRoute perms origin request ≠ Route.drop ↔
      (truthy request = true ∧ ∃ s name, getField request "method" = JSVal.vStr s
        ∧ (jsSplit s "cross-storage:")[1]? = some name ∧ name ≠ "") := by
  unfold listenerRoute
  cases htr : truthy request
  · simp [htr]
  · cases hm : getField request "method" with
    | vStr s =>
      cases hg : (jsSplit s "cross-storage:")[1]? with
      | none => simp [htr, hm, hg]
      | some name =>
        by_cases hname : name = ""
        · subst hname
          simp [htr, hm, hg]
        · by_cases hp : permitted perms origin name = true
          · simp [htr, hm, hg, hname, hp]
          · simp [htr, hm, hg, hname, hp]
    | vNull => simp [htr, hm]
    | vUndefined => simp [htr, hm]
    | vBool b => simp [htr, hm]
    | vNum n => simp [htr, hm]
    | vArr elems => simp [htr, hm]
    | vObj fields => simp [htr, hm]

/-- Counterexample to claim C5 as stated: a parsed payload whose
`method` string is `"xcross-storage:get"` — which does not begin with
`"cross-storage:"` and so is not of the exact form
`"cross-storage:<name>"` — is *not* dropped silently: the listener
extracts the name `"get"` and (here, with an empty permission table)
emits a permission-error reply. -/
theorem listener_accepts_embedded_marker :
    listenerRoute [] "https://client.example.com" reqMarkedMethod
        = Route.reply (postMessage "https://client.example.com" reqMarkedMethod
            (some "Invalid permissions for get") JSVal.vUndefined)
      ∧ getField reqMarkedMethod "method" = JSVal.vStr "xcross-storage:get"
      ∧ "xcross-storage:get".data.take "cross-storage:".data.length ≠ "cross-storage:".data :=
  ⟨rfl, rfl, by decide⟩

theorem permitted_true_mem_available (perms : List PermEntry) (O M : String)
    (h : permitted perms O M = true) : M ∈ available := by
  cases hb : inArray M available with
  | true => exact (inArray_eq_true_iff M available).mp hb
  | false =>
    unfold permitted at h
    rw [hb] at h
    simp at h

/-- Claim C9: when `init` is called with a null/missing permissions list
and a usable storage path, the listener is installed with the empty
permission table; `permitted` is false under that table for every origin
and method, so every well-formed data request receives an
`"Invalid permissions for <name>"` error reply, and no request is ever
dispatched to a storage handler. -/
theorem null_permissions_default_deny :
    init none true = some { permissions := [] }
      ∧ (∀ O M : String, permitted [] O M = false)
      ∧ (∀ (origin : String) (request : JSVal) (s name : String),
          truthy request = true → getField request "method" = JSVal.vStr s →
          (jsSplit s "cross-storage:")[1]? = some name → name ≠ "" →
          listenerRoute [] origin request
            = Route.reply (postMessage origin request
                (some ("Invalid permissions for " ++ name)) JSVal.vUndefined))
      ∧ (∀ (origin : String) (request : JSVal) (name : String) (params id : JSVal),
          listenerRoute [] origin request ≠ Route.dispatch name params id) := by
  have hperm : ∀ O M : String, permitted [] O M = false := by
    intro O M
    unfold permitted
    split
    · rfl
    · rfl
  refine ⟨rfl, hperm, ?_, ?_⟩
  · intro origin request s name htr hm hg hname
    simp [listenerRoute, htr, hm, hg, hname, hperm]
  · intro origin request name params id h
    unfold listenerRoute at h
    cases htr : truthy request
    · simp [htr] at h
    · cases hm : getField request "method" with
      | vStr s =>
        cases hg : (jsSplit s "cross-storage:")[1]? with
        | none => simp [htr, hm, hg] at h
        | some nm =>
          by_cases hname : nm = ""
          · subst hname
            simp [htr, hm, hg] at h
          · simp [htr, hm, hg, hname, hperm] at h
      | vNull => simp [htr, hm] at h
      | vUndefined => simp [htr, hm] at h
      | vBool b => simp [htr, hm] at h
      | vNum n => simp [htr, hm] at h
      | vArr elems => simp [htr, hm] at h
      | vObj fields => simp [htr, hm] at h

theorem null_permissions_default_deny_witness :
    truthy reqGet = true
      ∧ getField reqGet "method" = JSVal.vStr "cross-storage:get"
      ∧ (jsSplit "cross-storage:get" "cross-storage:")[1]? = some "get"
      ∧ listenerRoute [] "o" reqGet
          = Route.reply (postMessage "o" reqGet
              (some ("Invalid permissions for " ++ "get")) JSVal.vUndefined) :=
  ⟨rfl, rfl, by decide,
   null_permissions_default_deny.2.2.1 "o" reqGet "cross-storage:get" "get" rfl rfl
     (by decide) (by decide)⟩

/-- Claim C10: the string-indexed dispatch `CrossStorageHub['_' + name]`
is reached only after `permitted` has returned true for the extracted
name, and `permitted` is false for every name outside the five
recognized ones — so for any attacker-chosen method string, dispatch can
only ever reach the five method handlers `_get`, `_set`, `_del`,
`_clear`, `_getKeys`, and no other hub-internal function. -/
theorem dispatch_confined (perms : List PermEntry) (origin : String) (request : JSVal)
    (name : String) (params id : JSVal)
    (h : listenerRoute perms origin request = Route.dispatch name params id) :
    permitted perms origin name = true ∧ name ∈ available := by
  unfold listenerRoute at h
  cases htr : truthy request
  · simp [htr] at h
  · cases hm : getField request "method" with
    | vStr s =>
      cases hg : (jsSplit s "cross-storage:")[1]? with
      | none => simp [htr, hm, hg] at h
      | some nm =>
        by_cases hname : nm = ""
        · subst hname
          simp [htr, hm, hg] at h
        · by_cases hp : permitted perms origin nm = true
          · simp only [htr, hm, hg, hname, hp] at h
            simp [hname] at h
            obtain ⟨h1, -, -⟩ := h
            subst h1
            exact ⟨hp, permitted_true_mem_available perms origin nm hp⟩
          · simp [htr, hm, hg, hname, hp] at h
    | vNull => simp [htr, hm] at h
    | vUndefined => simp [htr, hm] at h
    | vBool b => simp [htr, hm] at h
    | vNum n => simp [htr, hm] at h
    | vArr elems => simp [htr, hm] at h
    | vObj fields => simp [htr, hm] at h

theorem dispatch_confined_witness :
    listenerRoute [entryClientGet] "https://client.example.com" reqGet
        = Route.dispatch "get" (JSVal.vObj [("keys", JSVal.vArr [JSVal.vStr "a"])]) (JSVal.vNum 3)
      ∧ (permitted [entryClientGet] "https://client.example.com" "get" = true
          ∧ "get" ∈ available) :=
  ⟨rfl,
   dispatch_confined [entryClientGet] "https://client.example.com" reqGet "get"
     (JSVal.vObj [("keys", JSVal.vArr [JSVal.vStr "a"])]) (JSVal.vNum 3) rfl⟩

end CrossStorageHub
